import Mathlib

/-!
Verification of the scale scheduler core against its specification.

The Python sources are shallowly embedded: Python dicts become association
lists (`dictLookup` / `dictSet`), Python exceptions become `Except`, machine
integers become `Nat`/`Int`, and datetimes become minute counts on a linear
time line.  Components of the repository that the sample does not include
(`scheduler/cleanup/node.py`, `util/retry.py`, `storage.models.VALID_TAG_PATTERN`)
are modelled from the specification and marked as such in their doc comments.
-/

set_option maxHeartbeats 1000000
set_option maxRecDepth 8000

namespace Scale

/-- Association-list model of a Python dict with `Nat` keys: lookup returns the
value at the first matching key, `none` when the key is absent. -/
def dictLookup {α : Type} : List (Nat × α) → Nat → Option α
  | [], _ => none
  | (k, v) :: rest, key => if k = key then some v else dictLookup rest key

/-- Python dict assignment `d[key] = v`: replace the value at the key when it is
present (keeping its position), otherwise append a new binding. -/
def dictSet {α : Type} : List (Nat × α) → Nat → α → List (Nat × α)
  | [], key, v => [(key, v)]
  | (k, w) :: rest, key, v =>
    if k = key then (k, v) :: rest else (k, w) :: dictSet rest key v

theorem dictLookup_dictSet_self {α : Type} (d : List (Nat × α)) (k : Nat) (v : α) :
    dictLookup (dictSet d k v) k = some v := by
  induction d with
  | nil => simp [dictSet, dictLookup]
  | cons hd tl ih =>
    obtain ⟨k', w⟩ := hd
    by_cases h : k' = k
    · simp [dictSet, h, dictLookup]
    · simp [dictSet, h, dictLookup, ih]

theorem dictLookup_dictSet_ne {α : Type} (d : List (Nat × α)) (k k' : Nat) (v : α)
    (h : k ≠ k') : dictLookup (dictSet d k v) k' = dictLookup d k' := by
  induction d with
  | nil => simp [dictSet, dictLookup, h]
  | cons hd tl ih =>
    obtain ⟨k₀, w⟩ := hd
    by_cases h₀ : k₀ = k
    · subst h₀
      simp [dictSet, dictLookup, h]
    · simp [dictSet, h₀, dictLookup, ih]

/-! ## Cleanup manager (src/scale/scheduler/cleanup/manager.py) -/

/-- A node as seen by the cleanup manager (`scheduler.node.node_class.Node`):
a stable node id and the current (ephemeral) agent id. -/
structure Node where
  id : Nat
  agent_id : Nat
deriving DecidableEq, Repr

/-- The slice of a `RunningJobExecution` used by the cleanup manager: its id and
the id of the node it ran on. -/
structure JobExe where
  id : Nat
  node_id : Nat
deriving DecidableEq, Repr

/-- Status carried by a cleanup-task status update. -/
inductive CleanupTaskStatus where
  | running
  | finished
  | failed
  | lost
deriving DecidableEq, Repr

/-- The slice of `job.tasks.base_task.Task` the cleanup manager reads. -/
structure CleanupTask where
  agent_id : Nat
deriving DecidableEq, Repr

/-- The slice of `job.tasks.update.TaskStatusUpdate` the cleanup manager reads. -/
structure TaskUpdate where
  agent_id : Nat
  status : CleanupTaskStatus
deriving DecidableEq, Repr

/-- Modelled from the spec: `scheduler/cleanup/node.py` (class `NodeCleanup`) is
not part of the source sample.  Per spec section 4.4 the per-node state is an
ordered list of cleanup entries plus zero-or-one in-flight cleanup task. -/
structure NodeCleanup where
  node_id : Nat
  entries : List Nat
  inflight : Option (List Nat)
deriving DecidableEq, Repr

/-- Modelled from the spec: a fresh `NodeCleanup(node)` starts with an empty
cleanup queue and nothing in flight. -/
def NodeCleanup.new (n : Node) : NodeCleanup :=
  { node_id := n.id, entries := [], inflight := none }

/-- Modelled from the spec: `add_job_execution` appends the execution's cleanup
requirements to the node's queue. -/
def NodeCleanup.addJobExecution (nc : NodeCleanup) (exe : JobExe) : NodeCleanup :=
  { nc with entries := nc.entries ++ [exe.id] }

/-- Modelled from the spec (section 4.4): RUNNING is ignored, FINISHED drops the
completed entries and clears the in-flight task, FAILED clears the in-flight
task and re-queues its entries at the front, LOST is treated as FAILED. -/
def NodeCleanup.handleStatus (nc : NodeCleanup) (st : CleanupTaskStatus) : NodeCleanup :=
  match st with
  | .running => nc
  | .finished => { nc with inflight := none }
  | .failed | .lost =>
    match nc.inflight with
    | some es => { nc with entries := es ++ nc.entries, inflight := none }
    | none => nc

/-- Modelled from the spec: a task timeout is treated as FAILED. -/
def NodeCleanup.handleTimeout (nc : NodeCleanup) : NodeCleanup :=
  nc.handleStatus .failed

/-- Python `KeyError`, raised by a failed dict subscript. -/
inductive PyKeyError where
  | keyError
deriving DecidableEq, Repr

/-- State of `scheduler.cleanup.manager.CleanupManager`: the agent-id-to-node-id
dict and the node-id-to-`NodeCleanup` dict (the mutex is a no-op in the
sequential embedding). -/
structure CleanupManager where
  agent_ids : List (Nat × Nat)
  nodes : List (Nat × NodeCleanup)
deriving DecidableEq, Repr

/-- `CleanupManager.add_job_execution`: `self._nodes[job_exe.node_id]` is an
unguarded dict subscript, so an unknown node id raises `KeyError`. -/
def CleanupManager.add_job_execution (m : CleanupManager) (job_exe : JobExe) :
    Except PyKeyError CleanupManager :=
  match dictLookup m.nodes job_exe.node_id with
  | none => .error .keyError
  | some nc =>
    .ok { m with nodes := dictSet m.nodes job_exe.node_id (nc.addJobExecution job_exe) }

/-- `CleanupManager.handle_task_timeout`: return early when the agent id is
unknown, otherwise dispatch to the node's cleanup state. -/
def CleanupManager.handle_task_timeout (m : CleanupManager) (task : CleanupTask) :
    Except PyKeyError CleanupManager :=
  match dictLookup m.agent_ids task.agent_id with
  | none => .ok m
  | some node_id =>
    match dictLookup m.nodes node_id with
    | none => .error .keyError
    | some nc => .ok { m with nodes := dictSet m.nodes node_id nc.handleTimeout }

/-- `CleanupManager.handle_task_update`: return early when the agent id is
unknown, otherwise dispatch to the node's cleanup state. -/
def CleanupManager.handle_task_update (m : CleanupManager) (task_update : TaskUpdate) :
    Except PyKeyError CleanupManager :=
  match dictLookup m.agent_ids task_update.agent_id with
  | none => .ok m
  | some node_id =>
    match dictLookup m.nodes node_id with
    | none => .error .keyError
    | some nc =>
      .ok { m with nodes := dictSet m.nodes node_id (nc.handleStatus task_update.status) }

/-- One step of the `for node in nodes` loop in `CleanupManager.update_nodes`:
register a `NodeCleanup` for a node id not seen before, then (re-)record the
agent-id mapping. -/
def CleanupManager.updateNodesStep (m : CleanupManager) (n : Node) : CleanupManager :=
  let m₁ :=
    if (dictLookup m.nodes n.id).isSome then m
    else { m with nodes := dictSet m.nodes n.id (NodeCleanup.new n) }
  { m₁ with agent_ids := dictSet m₁.agent_ids n.agent_id n.id }

/-- `CleanupManager.update_nodes`: reset the agent-id dict, then walk the node
list, keeping existing per-node cleanup state and rebuilding the agent map. -/
def CleanupManager.update_nodes (m : CleanupManager) (nodes : List Node) : CleanupManager :=
  nodes.foldl CleanupManager.updateNodesStep { m with agent_ids := [] }

theorem updateNodesStep_agent_ids (m : CleanupManager) (n : Node) :
    (m.updateNodesStep n).agent_ids = dictSet m.agent_ids n.agent_id n.id := by
  by_cases h : (dictLookup m.nodes n.id).isSome <;>
    simp [CleanupManager.updateNodesStep, h]

theorem updateNodesStep_nodes (m : CleanupManager) (n : Node) :
    (m.updateNodesStep n).nodes =
      if (dictLookup m.nodes n.id).isSome then m.nodes
      else dictSet m.nodes n.id (NodeCleanup.new n) := by
  by_cases h : (dictLookup m.nodes n.id).isSome <;>
    simp [CleanupManager.updateNodesStep, h]

/-- Walking the node list never disturbs a per-node cleanup entry that is
already present. -/
theorem foldl_update_preserves_nodes (S : List Node) :
    ∀ (m : CleanupManager) (k : Nat), (dictLookup m.nodes k).isSome →
      dictLookup (S.foldl CleanupManager.updateNodesStep m).nodes k = dictLookup m.nodes k := by
  induction S with
  | nil => intro m k _; rfl
  | cons hd tl ih =>
    intro m k hk
    have hstep : dictLookup (m.updateNodesStep hd).nodes k = dictLookup m.nodes k := by
      rw [updateNodesStep_nodes]
      by_cases h : (dictLookup m.nodes hd.id).isSome
      · simp [h]
      · have hne : hd.id ≠ k := by
          intro he
          rw [he] at h
          exact h hk
        simp [h, dictLookup_dictSet_ne _ _ _ _ hne]
    have hk' : (dictLookup (m.updateNodesStep hd).nodes k).isSome := by
      rw [hstep]; exact hk
    rw [List.foldl_cons, ih _ k hk', hstep]

/-- A node id that was unknown before `update_nodes` ends up with a fresh
`NodeCleanup`. -/
theorem foldl_update_new_node (S : List Node) :
    ∀ (m : CleanupManager) (n : Node), n ∈ S →
      (S.Pairwise fun a b => a.id ≠ b.id) →
      dictLookup m.nodes n.id = none →
      dictLookup (S.foldl CleanupManager.updateNodesStep m).nodes n.id =
        some (NodeCleanup.new n) := by
  induction S with
  | nil => intro m n hn; exact absurd hn (List.not_mem_nil n)
  | cons hd tl ih =>
    intro m n hn hpw hnone
    rw [List.pairwise_cons] at hpw
    rcases List.mem_cons.mp hn with he | ht
    · subst he
      have hstep : dictLookup (m.updateNodesStep n).nodes n.id = some (NodeCleanup.new n) := by
        rw [updateNodesStep_nodes, hnone]
        simp [dictLookup_dictSet_self]
      rw [List.foldl_cons,
        foldl_update_preserves_nodes tl (m.updateNodesStep n) n.id (by rw [hstep]; rfl), hstep]
    · have hne : hd.id ≠ n.id := hpw.1 n ht
      have hstep : dictLookup (m.updateNodesStep hd).nodes n.id = none := by
        rw [updateNodesStep_nodes]
        by_cases h : (dictLookup m.nodes hd.id).isSome
        · simp [h, hnone]
        · simp [h, dictLookup_dictSet_ne _ _ _ _ hne, hnone]
      rw [List.foldl_cons]
      exact ih (m.updateNodesStep hd) n ht hpw.2 hstep

/-- The agent map is untouched by nodes whose agent id differs. -/
theorem foldl_update_agent_skip (S : List Node) :
    ∀ (m : CleanupManager) (a : Nat), (∀ n ∈ S, n.agent_id ≠ a) →
      dictLookup (S.foldl CleanupManager.updateNodesStep m).agent_ids a =
        dictLookup m.agent_ids a := by
  induction S with
  | nil => intro m a _; rfl
  | cons hd tl ih =>
    intro m a hne
    rw [List.foldl_cons, ih _ a fun n hn => hne n (List.mem_cons_of_mem hd hn),
      updateNodesStep_agent_ids,
      dictLookup_dictSet_ne _ _ _ _ (hne hd (List.mem_cons_self hd tl))]

/-- Every node in the snapshot ends up in the rebuilt agent map. -/
theorem foldl_update_agent_mem (S : List Node) :
    ∀ (m : CleanupManager) (n : Node), n ∈ S →
      (S.Pairwise fun a b => a.agent_id ≠ b.agent_id) →
      dictLookup (S.foldl CleanupManager.updateNodesStep m).agent_ids n.agent_id =
        some n.id := by
  induction S with
  | nil => intro m n hn; exact absurd hn (List.not_mem_nil n)
  | cons hd tl ih =>
    intro m n hn hpw
    rw [List.pairwise_cons] at hpw
    rcases List.mem_cons.mp hn with he | ht
    · subst he
      rw [List.foldl_cons,
        foldl_update_agent_skip tl _ n.agent_id (fun n' hn' => (hpw.1 n' hn').symm),
        updateNodesStep_agent_ids, dictLookup_dictSet_self]
    · rw [List.foldl_cons]
      exact ih _ n ht hpw.2

/-- Claim C4: after `CleanupManager.update_nodes(S)` the agent-id map is exactly
the pairs of `S`, every previously known node id keeps its per-node cleanup
state unchanged, and every node id of `S` that was unknown gets a fresh empty
cleanup queue. -/
theorem update_nodes_spec (m : CleanupManager) (S : List Node)
    (hAgents : S.Pairwise fun a b => a.agent_id ≠ b.agent_id)
    (hIds : S.Pairwise fun a b => a.id ≠ b.id) :
    (∀ a nid, dictLookup (m.update_nodes S).agent_ids a = some nid ↔
      ∃ n ∈ S, n.agent_id = a ∧ n.id = nid)
    ∧ (∀ k, (dictLookup m.nodes k).isSome →
      dictLookup (m.update_nodes S).nodes k = dictLookup m.nodes k)
    ∧ (∀ n ∈ S, dictLookup m.nodes n.id = none →
      ∃ nc, dictLookup (m.update_nodes S).nodes n.id = some nc ∧
        nc.entries = [] ∧ nc.inflight = none) := by
  unfold CleanupManager.update_nodes
  refine ⟨fun a nid => ⟨fun hlk => ?_, fun hex => ?_⟩,
    fun k hk => foldl_update_preserves_nodes S _ k hk,
    fun n hn hnone => ⟨NodeCleanup.new n, foldl_update_new_node S _ n hn hIds hnone, rfl, rfl⟩⟩
  · by_cases hmem : ∃ n ∈ S, n.agent_id = a
    · obtain ⟨n, hn, hna⟩ := hmem
      have := foldl_update_agent_mem S { m with agent_ids := [] } n hn hAgents
      rw [hna, hlk] at this
      exact ⟨n, hn, hna, (Option.some_injective _ this.symm)⟩
    · have hne : ∀ n ∈ S, n.agent_id ≠ a := by
        intro n hn he
        exact hmem ⟨n, hn, he⟩
      rw [foldl_update_agent_skip S _ a hne] at hlk
      exact absurd hlk (by simp [dictLookup])
  · obtain ⟨n, hn, hna, hnid⟩ := hex
    have := foldl_update_agent_mem S { m with agent_ids := [] } n hn hAgents
    rw [hna, hnid] at this
    exact this

/-- Witness for `update_nodes_spec` at a concrete manager and snapshot. -/
theorem update_nodes_spec_witness :
    ∃ nc, dictLookup ((CleanupManager.mk [(7, 1)]
        [(1, NodeCleanup.mk 1 [42] none)]).update_nodes
        [Node.mk 1 8, Node.mk 2 9]).nodes 2 = some nc ∧
      nc.entries = [] ∧ nc.inflight = none :=
  (update_nodes_spec (CleanupManager.mk [(7, 1)] [(1, NodeCleanup.mk 1 [42] none)])
    [Node.mk 1 8, Node.mk 2 9] (by decide) (by decide)).2.2
    (Node.mk 2 9) (by decide) (by decide)

/-- Claim C1 as stated is false: with no known nodes, `add_job_execution` for a
job execution on node id 5 raises `KeyError` rather than returning silently. -/
theorem add_job_execution_unknown_node_counterexample :
    dictLookup (CleanupManager.mk [] []).nodes 5 = none ∧
    (CleanupManager.mk [] []).add_job_execution (JobExe.mk 0 5) = .error .keyError := by
  exact ⟨rfl, rfl⟩

/-- Claim C1 (amended): when `job_exe.node_id` is not a known node,
`add_job_execution` raises `KeyError` (the unguarded dict subscript fails);
since it throws before any mutation, no per-node cleanup queue is changed. -/
theorem add_job_execution_unknown_node_raises (m : CleanupManager) (job_exe : JobExe)
    (h : dictLookup m.nodes job_exe.node_id = none) :
    m.add_job_execution job_exe = .error .keyError := by
  simp [CleanupManager.add_job_execution, h]

/-- Witness for `add_job_execution_unknown_node_raises` at a concrete input. -/
theorem add_job_execution_unknown_node_raises_witness :
    (CleanupManager.mk [(3, 4)] []).add_job_execution (JobExe.mk 1 5) = .error .keyError :=
  add_job_execution_unknown_node_raises (CleanupManager.mk [(3, 4)] []) (JobExe.mk 1 5) rfl

/-- Claim C9: a task status update or task timeout whose agent id is absent from
the agent map returns silently and leaves the manager unchanged. -/
theorem handle_unknown_agent_silent (m : CleanupManager) (task : CleanupTask)
    (task_update : TaskUpdate)
    (htask : dictLookup m.agent_ids task.agent_id = none)
    (hupd : dictLookup m.agent_ids task_update.agent_id = none) :
    m.handle_task_timeout task = .ok m ∧ m.handle_task_update task_update = .ok m := by
  constructor
  · simp [CleanupManager.handle_task_timeout, htask]
  · simp [CleanupManager.handle_task_update, hupd]

/-- Witness for `handle_unknown_agent_silent` at a concrete input. -/
theorem handle_unknown_agent_silent_witness :
    (CleanupManager.mk [(3, 4)] [(4, NodeCleanup.mk 4 [1] none)]).handle_task_timeout
        (CleanupTask.mk 9) =
      .ok (CleanupManager.mk [(3, 4)] [(4, NodeCleanup.mk 4 [1] none)]) ∧
    (CleanupManager.mk [(3, 4)] [(4, NodeCleanup.mk 4 [1] none)]).handle_task_update
        (TaskUpdate.mk 9 .finished) =
      .ok (CleanupManager.mk [(3, 4)] [(4, NodeCleanup.mk 4 [1] none)]) :=
  handle_unknown_agent_silent (CleanupManager.mk [(3, 4)] [(4, NodeCleanup.mk 4 [1] none)])
    (CleanupTask.mk 9) (TaskUpdate.mk 9 .finished) rfl rfl

/-! ## Volume (src/scale/job/configuration/volume.py) -/

/-- Python string interpolation of a value that may be `None`: `'%s' % None`
renders as `"None"`. -/
def pyStr (o : Option String) : String :=
  match o with
  | some s => s
  | none => "None"

/-- Python truthiness of an optional string: `None` and `''` are falsy. -/
def strTruthy (o : Option String) : Bool :=
  match o with
  | none => false
  | some s => s ≠ ""

/-- Modelled from the spec: `job.configuration.job_parameter.DockerParam` is not
in the source sample; per the spec a mount produces one parameter of key
`volume` with a string value. -/
structure DockerParam where
  key : String
  value : String
deriving DecidableEq, Repr

/-- `job.configuration.volume.Volume`: the Python dict `driver_opts` is embedded
as an association list in insertion order (`None` and `{}` are both the empty
list, matching their shared falsiness in the source). -/
structure Volume where
  container_path : String
  mode : String
  is_host : Bool
  host_path : Option String
  name : Option String
  driver : Option String
  driver_opts : List (String × String)
deriving DecidableEq, Repr

/-- The `driver_params` list built inside `Volume.to_docker_param`: the driver
flag when the driver is truthy, then one `--opt` item per driver option. -/
def Volume.driverParams (v : Volume) : List String :=
  (if strTruthy v.driver then ["--driver " ++ pyStr v.driver] else []) ++
    v.driver_opts.map (fun p => "--opt " ++ p.1 ++ "=" ++ p.2)

/-- `Volume.to_docker_param`. -/
def Volume.to_docker_param (v : Volume) : DockerParam :=
  let volume_name :=
    if v.is_host then
      pyStr v.host_path
    else
      let driver_params := v.driverParams
      if driver_params = [] then
        "$(docker volume create --name " ++ pyStr v.name ++ ")"
      else
        "$(docker volume create --name " ++ pyStr v.name ++ " " ++
          String.intercalate " " driver_params ++ ")"
  DockerParam.mk "volume" (volume_name ++ ":" ++ v.container_path ++ ":" ++ v.mode)

/-- Claim C2 as stated is false: a non-host volume with no driver but with a
driver option does not produce the plain create command; the `--opt` item is
appended even though no driver is set. -/
theorem to_docker_param_no_driver_counterexample :
    (Volume.mk "/c" "rw" false none (some "v") none [("a", "b")]).is_host = false ∧
    (Volume.mk "/c" "rw" false none (some "v") none [("a", "b")]).driver = none ∧
    (Volume.mk "/c" "rw" false none (some "v") none [("a", "b")]).to_docker_param =
      DockerParam.mk "volume" "$(docker volume create --name v --opt a=b):/c:rw" ∧
    (Volume.mk "/c" "rw" false none (some "v") none [("a", "b")]).to_docker_param ≠
      DockerParam.mk "volume" "$(docker volume create --name v):/c:rw" := by
  refine ⟨rfl, rfl, rfl, ?_⟩
  decide

/-- Claim C2 (amended): `to_docker_param` yields exactly one parameter of key
`volume`; its value is `host_path:container_path:mode` for host mounts,
`$(docker volume create --name name):container_path:mode` when neither a driver
nor any driver option is set, and when a driver and/or driver options are set
the `--driver` flag (when the driver is set) followed by one `--opt k=v` per
option, in insertion order, is appended inside the create command before
`:container_path:mode`. -/
theorem to_docker_param_spec (v : Volume) :
    v.to_docker_param.key = "volume"
    ∧ (v.is_host = true →
      v.to_docker_param = DockerParam.mk "volume"
        (pyStr v.host_path ++ ":" ++ v.container_path ++ ":" ++ v.mode))
    ∧ (v.is_host = false → strTruthy v.driver = false → v.driver_opts = [] →
      v.to_docker_param = DockerParam.mk "volume"
        ("$(docker volume create --name " ++ pyStr v.name ++ "):" ++
          v.container_path ++ ":" ++ v.mode))
    ∧ (v.is_host = false → v.driverParams ≠ [] →
      v.to_docker_param = DockerParam.mk "volume"
        ("$(docker volume create --name " ++ pyStr v.name ++ " " ++
          String.intercalate " "
            ((if strTruthy v.driver then ["--driver " ++ pyStr v.driver] else []) ++
              v.driver_opts.map (fun p => "--opt " ++ p.1 ++ "=" ++ p.2)) ++ "):" ++
          v.container_path ++ ":" ++ v.mode)) := by
  refine ⟨?_, fun hh => ?_, fun hh hd ho => ?_, fun hh hdp => ?_⟩
  · by_cases h : v.is_host <;> simp [Volume.to_docker_param, h]
  · simp [Volume.to_docker_param, hh, String.append_assoc]
  · have hdp : v.driverParams = [] := by
      simp [Volume.driverParams, hd, ho]
    simp [Volume.to_docker_param, hh, hdp, String.append_assoc]
  · simp only [Volume.to_docker_param, hh, Bool.false_eq_true, if_false, hdp, if_neg hdp]
    simp [Volume.driverParams, String.append_assoc]

/-- Witness for `to_docker_param_spec` at concrete host, plain, and
driver-with-options volumes. -/
theorem to_docker_param_spec_witness :
    (Volume.mk "/c" "ro" true (some "/h") none none []).to_docker_param =
      DockerParam.mk "volume" "/h:/c:ro" ∧
    (Volume.mk "/c" "rw" false none (some "v") none []).to_docker_param =
      DockerParam.mk "volume" "$(docker volume create --name v):/c:rw" ∧
    (Volume.mk "/c" "rw" false none (some "v") (some "d") [("a", "b")]).to_docker_param =
      DockerParam.mk "volume" "$(docker volume create --name v --driver d --opt a=b):/c:rw" := by
  refine ⟨?_, ?_, ?_⟩
  · rw [(to_docker_param_spec (Volume.mk "/c" "ro" true (some "/h") none none [])).2.1 rfl]
    decide
  · rw [(to_docker_param_spec (Volume.mk "/c" "rw" false none (some "v") none [])).2.2.1
      rfl rfl rfl]
    decide
  · rw [(to_docker_param_spec
      (Volume.mk "/c" "rw" false none (some "v") (some "d") [("a", "b")])).2.2.2
      rfl (by decide)]
    decide

/-! ## Scheduling thread (src/scale/scheduler/threads/schedule.py) -/

/-- `SchedulingThread.DELAY`, in seconds. -/
def DELAY : Nat := 5

/-- `SchedulingThread.MAX_NEW_JOB_EXES`. -/
def MAX_NEW_JOB_EXES : Nat := 500

/-- The slice of the job-type snapshot the scheduling thread reads. -/
structure JobTypeView where
  is_paused : Bool
deriving DecidableEq, Repr

/-- A persistence queue entry (`queue.models.Queue` row, wrapped into a
`QueuedJobExecution` when offered). -/
structure QueueEntry where
  id : Nat
  job_type_id : Nat
deriving DecidableEq, Repr

/-- The iteration of `SchedulingThread._consider_new_job_exes` after the paused
gate, carrying the `num_job_exes` counter; the offer manager
(`consider_new_job_exe`) is external and is abstracted by `accept`.  The value
is the list of queue entries actually offered for admission, in order. -/
def consider_new_job_exes_go (job_types : Nat → Option JobTypeView)
    (accept : QueueEntry → Bool) : List QueueEntry → Nat → List QueueEntry
  | [], _ => []
  | q :: rest, num =>
    match job_types q.job_type_id with
    | none => consider_new_job_exes_go job_types accept rest num
    | some jt =>
      if jt.is_paused then consider_new_job_exes_go job_types accept rest num
      else
        q :: (if accept q then
          (if num + 1 ≥ MAX_NEW_JOB_EXES then []
            else consider_new_job_exes_go job_types accept rest (num + 1))
          else consider_new_job_exes_go job_types accept rest num)

/-- `SchedulingThread._consider_new_job_exes`: return immediately when the
scheduler is paused, otherwise walk the queue. -/
def consider_new_job_exes (scheduler_is_paused : Bool)
    (job_types : Nat → Option JobTypeView) (accept : QueueEntry → Bool)
    (queue : List QueueEntry) : List QueueEntry :=
  if scheduler_is_paused then []
  else consider_new_job_exes_go job_types accept queue 0

theorem consider_go_cons_unknown (job_types : Nat → Option JobTypeView)
    (accept : QueueEntry → Bool) (hd : QueueEntry) (tl : List QueueEntry) (num : Nat)
    (h : job_types hd.job_type_id = none) :
    consider_new_job_exes_go job_types accept (hd :: tl) num =
      consider_new_job_exes_go job_types accept tl num := by
  rw [consider_new_job_exes_go.eq_2]
  simp only [h]

theorem consider_go_cons_known (job_types : Nat → Option JobTypeView)
    (accept : QueueEntry → Bool) (hd : QueueEntry) (tl : List QueueEntry) (num : Nat)
    (jt : JobTypeView) (h : job_types hd.job_type_id = some jt) :
    consider_new_job_exes_go job_types accept (hd :: tl) num =
      if jt.is_paused then consider_new_job_exes_go job_types accept tl num
      else hd :: (if accept hd then
        (if num + 1 ≥ MAX_NEW_JOB_EXES then []
          else consider_new_job_exes_go job_types accept tl (num + 1))
        else consider_new_job_exes_go job_types accept tl num) := by
  rw [consider_new_job_exes_go.eq_2]
  simp only [h]

theorem consider_go_eligible (job_types : Nat → Option JobTypeView)
    (accept : QueueEntry → Bool) (queue : List QueueEntry) :
    ∀ num q, q ∈ consider_new_job_exes_go job_types accept queue num →
      ∃ jt, job_types q.job_type_id = some jt ∧ jt.is_paused = false := by
  induction queue with
  | nil => intro num q hq; simp [consider_new_job_exes_go] at hq
  | cons hd tl ih =>
    intro num q hq
    cases hjt : job_types hd.job_type_id with
    | none =>
      rw [consider_go_cons_unknown job_types accept hd tl num hjt] at hq
      exact ih num q hq
    | some jt =>
      rw [consider_go_cons_known job_types accept hd tl num jt hjt] at hq
      by_cases hp : jt.is_paused
      · rw [if_pos hp] at hq
        exact ih num q hq
      · rw [if_neg hp] at hq
        rcases List.mem_cons.mp hq with he | ht
        · subst he
          exact ⟨jt, hjt, by simpa using hp⟩
        · by_cases ha : accept hd
          · rw [if_pos ha] at ht
            by_cases hcap : num + 1 ≥ MAX_NEW_JOB_EXES
            · rw [if_pos hcap] at ht
              simp at ht
            · rw [if_neg hcap] at ht
              exact ih (num + 1) q ht
          · rw [if_neg ha] at ht
            exact ih num q ht

theorem consider_go_count (job_types : Nat → Option JobTypeView)
    (accept : QueueEntry → Bool) (queue : List QueueEntry) :
    ∀ num, num < MAX_NEW_JOB_EXES →
      (consider_new_job_exes_go job_types accept queue num).countP accept + num ≤
        MAX_NEW_JOB_EXES := by
  induction queue with
  | nil => intro num hnum; simp [consider_new_job_exes_go]; omega
  | cons hd tl ih =>
    intro num hnum
    cases hjt : job_types hd.job_type_id with
    | none =>
      rw [consider_go_cons_unknown job_types accept hd tl num hjt]
      exact ih num hnum
    | some jt =>
      rw [consider_go_cons_known job_types accept hd tl num jt hjt]
      by_cases hp : jt.is_paused
      · simp only [if_pos hp]
        exact ih num hnum
      · simp only [if_neg hp]
        by_cases ha : accept hd = true
        · simp only [if_pos ha]
          by_cases hcap : num + 1 ≥ MAX_NEW_JOB_EXES
          · simp only [if_pos hcap, List.countP_cons, ha, List.countP_nil, if_true]
            simp only [MAX_NEW_JOB_EXES] at hnum hcap ⊢
            omega
          · simp only [if_neg hcap, List.countP_cons, ha, if_true]
            have := ih (num + 1) (by simp only [MAX_NEW_JOB_EXES] at hnum hcap ⊢; omega)
            simp only [MAX_NEW_JOB_EXES] at this hnum ⊢
            omega
        · have ha' : accept hd = false := by simpa using ha
          simp only [if_neg ha, List.countP_cons, ha', Bool.false_eq_true, if_false]
          have := ih num hnum
          simp only [MAX_NEW_JOB_EXES] at this hnum ⊢
          omega

theorem consider_go_stop (job_types : Nat → Option JobTypeView)
    (accept : QueueEntry → Bool) (queue : List QueueEntry) :
    ∀ num pre suf, num < MAX_NEW_JOB_EXES →
      consider_new_job_exes_go job_types accept queue num = pre ++ suf →
      MAX_NEW_JOB_EXES ≤ pre.countP accept + num → suf = [] := by
  induction queue with
  | nil =>
    intro num pre suf hnum heq hcnt
    unfold consider_new_job_exes_go at heq
    exact (List.append_eq_nil.mp heq.symm).2
  | cons hd tl ih =>
    intro num pre suf hnum heq hcnt
    cases hjt : job_types hd.job_type_id with
    | none =>
      rw [consider_go_cons_unknown job_types accept hd tl num hjt] at heq
      exact ih num pre suf hnum heq hcnt
    | some jt =>
      rw [consider_go_cons_known job_types accept hd tl num jt hjt] at heq
      by_cases hp : jt.is_paused
      · rw [if_pos hp] at heq
        exact ih num pre suf hnum heq hcnt
      · rw [if_neg hp] at heq
        cases pre with
        | nil =>
          simp only [List.countP_nil, Nat.zero_add] at hcnt
          omega
        | cons p pre' =>
          rw [List.cons_append] at heq
          have hpe : hd = p := (List.cons_eq_cons.mp heq).1
          have heq' := (List.cons_eq_cons.mp heq).2
          by_cases ha : accept hd = true
          · rw [if_pos ha] at heq'
            by_cases hcap : num + 1 ≥ MAX_NEW_JOB_EXES
            · rw [if_pos hcap] at heq'
              exact (List.append_eq_nil.mp heq'.symm).2
            · rw [if_neg hcap] at heq'
              refine ih (num + 1) pre' suf ?_ heq' ?_
              · simp only [MAX_NEW_JOB_EXES] at hnum hcap ⊢
                omega
              · rw [List.countP_cons, ← hpe, ha, if_pos rfl] at hcnt
                omega
          · rw [if_neg ha] at heq'
            have ha' : accept hd = false := by simpa using ha
            refine ih num pre' suf hnum heq' ?_
            rw [List.countP_cons, ← hpe, ha'] at hcnt
            simpa using hcnt

/-- Claim C5: when the scheduler is globally paused no queued execution is
considered; otherwise only entries whose job type is known and unpaused are
offered for admission, at most `MAX_NEW_JOB_EXES = 500` admissions are accepted,
and iteration stops as soon as the accepted count reaches 500. -/
theorem consider_new_job_exes_spec (job_types : Nat → Option JobTypeView)
    (accept : QueueEntry → Bool) (queue : List QueueEntry) :
    consider_new_job_exes true job_types accept queue = []
    ∧ (∀ q ∈ consider_new_job_exes false job_types accept queue,
        ∃ jt, job_types q.job_type_id = some jt ∧ jt.is_paused = false)
    ∧ (consider_new_job_exes false job_types accept queue).countP accept ≤ MAX_NEW_JOB_EXES
    ∧ (∀ pre suf, consider_new_job_exes false job_types accept queue = pre ++ suf →
        MAX_NEW_JOB_EXES ≤ pre.countP accept → suf = []) := by
  refine ⟨rfl, ?_, ?_, ?_⟩
  · intro q hq
    exact consider_go_eligible job_types accept queue 0 q hq
  · have := consider_go_count job_types accept queue 0 (by simp [MAX_NEW_JOB_EXES])
    simpa using this
  · intro pre suf heq hcnt
    exact consider_go_stop job_types accept queue 0 pre suf
      (by simp [MAX_NEW_JOB_EXES]) heq (by simpa using hcnt)

/-- Witness for `consider_new_job_exes_spec` at a concrete queue: the entry with
the unknown job type 2 is skipped, the entry with job type 1 is offered. -/
theorem consider_new_job_exes_spec_witness :
    ∃ jt, (fun t => if t = 1 then some (JobTypeView.mk false)
        else (none : Option JobTypeView)) (QueueEntry.mk 0 1).job_type_id = some jt ∧
      jt.is_paused = false :=
  (consider_new_job_exes_spec
      (fun t => if t = 1 then some (JobTypeView.mk false) else none)
      (fun _ => true) [QueueEntry.mk 0 1, QueueEntry.mk 1 2]).2.1
    (QueueEntry.mk 0 1) (by decide)

/-- The slice of a running job execution used by `_schedule_accepted_tasks`:
its node id and the value its `start_next_task()` returns in this round
(`none` models a falsy result). -/
structure RunningJobExe where
  id : Nat
  node_id : Nat
  next_task : Option Nat
deriving DecidableEq, Repr

/-- A queued job execution accepted by the offer manager. -/
structure QueuedJobExe where
  id : Nat
deriving DecidableEq, Repr

/-- The per-node aggregation returned by the offer manager (the offer manager
itself is an external collaborator): node id, offer ids, and the accepted
running and new executions. -/
structure NodeOffers where
  node_id : Nat
  offer_ids : List Nat
  accepted_running : List RunningJobExe
  accepted_new : List QueuedJobExe
deriving DecidableEq, Repr

/-- `django.db.OperationalError`, the transient database error caught by
`_schedule_accepted_tasks`. -/
inductive OperationalError where
  | operationalError
deriving DecidableEq, Repr

/-- The observable outcome of `_schedule_accepted_tasks`: what was passed to
`job_exe_manager.add_job_exes`, the `(offer_ids, task list)` pairs passed to
`driver.launchTasks` per node group in order, and the returned task count.
Task lists hold `Option Nat` because the queued path appends
`start_next_task()` results unconditionally, `None` included. -/
structure SchedulingResult where
  addedJobExes : List RunningJobExe
  launches : List (List Nat × List (Option Nat))
  numTasks : Nat
deriving DecidableEq, Repr

/-- The `node_tasks` list built for one node group: tasks of accepted running
executions whose `start_next_task()` is truthy (falsy results are skipped). -/
def runningTasks (no : NodeOffers) : List (Option Nat) :=
  (no.accepted_running.filterMap (fun re => re.next_task)).map some

/-- `tasks_to_launch[key].append(v)`: `none` models the `KeyError` raised when
the key is absent. -/
def dictAppendAt : List (Nat × List (Option Nat)) → Nat → Option Nat →
    Option (List (Nat × List (Option Nat)))
  | [], _, _ => none
  | (k, l) :: rest, key, v =>
    if k = key then some ((k, l ++ [v]) :: rest)
    else
      match dictAppendAt rest key v with
      | some rest' => some ((k, l) :: rest')
      | none => none

/-- The `for scheduled_job_exe in scheduled_job_exes` loop: append each
scheduled execution's `start_next_task()` result (`None` included) to its
node's task list. -/
def appendScheduled (d : List (Nat × List (Option Nat))) :
    List RunningJobExe → Option (List (Nat × List (Option Nat)))
  | [] => some d
  | se :: rest =>
    match dictAppendAt d se.node_id se.next_task with
    | some d₁ => appendScheduled d₁ rest
    | none => none

/-- `SchedulingThread._schedule_accepted_tasks`, parametrized by the outcome of
the (retried) persistence call `sched`; an `OperationalError` from it is caught
and abandons the queued executions, while the accepted-running tasks gathered
before the call are still launched. -/
def schedule_accepted_tasks (node_offers_list : List NodeOffers)
    (sched : List QueuedJobExe → Except OperationalError (List RunningJobExe)) :
    Except PyKeyError SchedulingResult :=
  let d₀ := node_offers_list.foldl
    (fun d no => dictSet d no.node_id (runningTasks no)) []
  let queued := node_offers_list.flatMap (fun no => no.accepted_new)
  let outcome :=
    match sched queued with
    | .ok scheduled =>
      match appendScheduled d₀ scheduled with
      | some d₁ => some (scheduled, d₁)
      | none => none
    | .error _ => some ([], d₀)
  match outcome with
  | none => .error .keyError
  | some (added, d) =>
    .ok { addedJobExes := added,
          launches := node_offers_list.map (fun no =>
            (no.offer_ids, (dictLookup d no.node_id).getD [])),
          numTasks := (node_offers_list.map (fun no =>
            ((dictLookup d no.node_id).getD []).length)).sum }

/-- Modelled from the spec: `util/retry.py` is not in the source sample; the
decorator arguments `max_tries=5, base_ms_delay=1000, max_ms_delay=5000` are in
`schedule.py`.  Per spec section 4.3 the delay before retry `i` grows
exponentially from the base and is capped by the maximum. -/
def retryDelayMs (baseMs maxMs i : Nat) : Nat :=
  min (baseMs * 2 ^ i) maxMs

/-- The trace of one retried call: its final result, how many attempts were
made, and the backoff delays slept between attempts. -/
structure RetryTrace (α : Type) where
  result : Except OperationalError α
  attemptsMade : Nat
  delaysMs : List Nat

/-- Modelled from the spec: the retry loop of `util.retry.retry_database_query`.
`attempt i` is the outcome of the i-th call of the wrapped function; the loop
returns the first success, retrying after a backoff delay, and propagates the
error of the last try when all tries fail. -/
def runRetryAux {α : Type} (attempt : Nat → Except OperationalError α)
    (baseMs maxMs : Nat) : Nat → Nat → RetryTrace α
  | i, 0 => { result := .error .operationalError, attemptsMade := i, delaysMs := [] }
  | i, 1 => { result := attempt i, attemptsMade := i + 1, delaysMs := [] }
  | i, fuel + 2 =>
    match attempt i with
    | .ok a => { result := .ok a, attemptsMade := i + 1, delaysMs := [] }
    | .error _ =>
      let t := runRetryAux attempt baseMs maxMs (i + 1) (fuel + 1)
      { t with delaysMs := retryDelayMs baseMs maxMs i :: t.delaysMs }

/-- Modelled from the spec: `retry_database_query(max_tries, base_ms_delay,
max_ms_delay)` applied to a callable. -/
def retry_database_query {α : Type} (maxTries baseMs maxMs : Nat)
    (attempt : Nat → Except OperationalError α) : RetryTrace α :=
  runRetryAux attempt baseMs maxMs 0 maxTries

/-- `SchedulingThread._schedule_queued_job_executions`: the persistence call
wrapped in `retry_database_query(max_tries=5, base_ms_delay=1000,
max_ms_delay=5000)`. -/
def schedule_queued_job_executions
    (attempt : Nat → List QueuedJobExe → Except OperationalError (List RunningJobExe))
    (job_executions : List QueuedJobExe) : RetryTrace (List RunningJobExe) :=
  retry_database_query 5 1000 5000 (fun i => attempt i job_executions)

/-- `_schedule_accepted_tasks` with its real persistence call: the retried
`schedule_job_executions`. -/
def schedule_accepted_tasks_run (node_offers_list : List NodeOffers)
    (attempt : Nat → List QueuedJobExe → Except OperationalError (List RunningJobExe)) :
    Except PyKeyError SchedulingResult :=
  schedule_accepted_tasks node_offers_list
    (fun batch => (schedule_queued_job_executions attempt batch).result)

/-- The driver calls made by the tail of one `SchedulingThread.run` iteration. -/
inductive DriverCall where
  | declineOffer (offer_id : Nat)
  | sleepFor (seconds : Nat)
deriving DecidableEq, Repr

/-- The tail of one iteration of `SchedulingThread.run`: when the round launched
zero tasks, decline every offer of every popped `NodeOffers` and sleep `DELAY`
seconds; otherwise do nothing and go straight to the next round. -/
def run_loop_tail (res : SchedulingResult) (popped : List NodeOffers) : List DriverCall :=
  if res.numTasks = 0 then
    popped.flatMap (fun no => no.offer_ids.map DriverCall.declineOffer) ++
      [DriverCall.sleepFor DELAY]
  else []

theorem declineOffer_injective : Function.Injective DriverCall.declineOffer := by
  intro a b h
  cases h
  rfl

/-- Claim C6: a round with zero launched tasks declines every offer id of every
popped `NodeOffers` exactly once each and then sleeps `DELAY = 5` seconds; a
round that launched at least one task issues no declines and no sleep. -/
theorem run_loop_tail_spec (res : SchedulingResult) (popped : List NodeOffers) :
    (res.numTasks = 0 →
      (∀ i, (run_loop_tail res popped).count (DriverCall.declineOffer i) =
        (popped.flatMap (fun no => no.offer_ids)).count i)
      ∧ (run_loop_tail res popped).getLast? = some (DriverCall.sleepFor 5))
    ∧ (res.numTasks ≠ 0 → run_loop_tail res popped = []) := by
  constructor
  · intro hz
    constructor
    · intro i
      rw [run_loop_tail, if_pos hz, List.count_append]
      have hmap : popped.flatMap (fun no => no.offer_ids.map DriverCall.declineOffer) =
          (popped.flatMap (fun no => no.offer_ids)).map DriverCall.declineOffer := by
        rw [List.map_flatMap]
      rw [hmap, List.count_map_of_injective _ _ declineOffer_injective]
      simp
    · rw [run_loop_tail, if_pos hz, List.getLast?_concat, DELAY]
  · intro hnz
    rw [run_loop_tail, if_neg hnz]

/-- Witness for `run_loop_tail_spec`: a barren round over one node with two
offers declines both ids and sleeps; a round with two tasks does nothing. -/
theorem run_loop_tail_spec_witness :
    ((∀ i, (run_loop_tail (SchedulingResult.mk [] [] 0)
          [NodeOffers.mk 1 [10, 11] [] []]).count (DriverCall.declineOffer i) =
        ([NodeOffers.mk 1 [10, 11] [] []].flatMap (fun no => no.offer_ids)).count i)
      ∧ (run_loop_tail (SchedulingResult.mk [] [] 0)
          [NodeOffers.mk 1 [10, 11] [] []]).getLast? = some (DriverCall.sleepFor 5))
    ∧ run_loop_tail (SchedulingResult.mk [] [] 2) [NodeOffers.mk 1 [10, 11] [] []] = [] :=
  ⟨(run_loop_tail_spec (SchedulingResult.mk [] [] 0) [NodeOffers.mk 1 [10, 11] [] []]).1 rfl,
    (run_loop_tail_spec (SchedulingResult.mk [] [] 2) [NodeOffers.mk 1 [10, 11] [] []]).2
      (by decide)⟩

theorem foldl_tasks_skip (l : List NodeOffers) :
    ∀ (d : List (Nat × List (Option Nat))) (k : Nat), (∀ x ∈ l, x.node_id ≠ k) →
      dictLookup (l.foldl (fun d no => dictSet d no.node_id (runningTasks no)) d) k =
        dictLookup d k := by
  induction l with
  | nil => intro d k _; rfl
  | cons hd tl ih =>
    intro d k hne
    rw [List.foldl_cons, ih _ k fun x hx => hne x (List.mem_cons_of_mem hd hx),
      dictLookup_dictSet_ne _ _ _ _ (hne hd (List.mem_cons_self hd tl))]

theorem foldl_tasks_mem (l : List NodeOffers) :
    ∀ (d : List (Nat × List (Option Nat))) (no : NodeOffers), no ∈ l →
      (l.Pairwise fun a b => a.node_id ≠ b.node_id) →
      dictLookup (l.foldl (fun d no => dictSet d no.node_id (runningTasks no)) d)
          no.node_id = some (runningTasks no) := by
  induction l with
  | nil => intro d no hno; exact absurd hno (List.not_mem_nil no)
  | cons hd tl ih =>
    intro d no hno hpw
    rw [List.pairwise_cons] at hpw
    rcases List.mem_cons.mp hno with he | ht
    · subst he
      rw [List.foldl_cons, foldl_tasks_skip tl _ no.node_id
        (fun x hx => (hpw.1 x hx).symm), dictLookup_dictSet_self]
    · rw [List.foldl_cons]
      exact ih _ no ht hpw.2

/-- Claim C3: when every attempt of the persistence call fails with a transient
database error, `_schedule_queued_job_executions` makes exactly 5 attempts,
backs off by delays between 1000 and 5000 ms, and the round abandons its
accepted queued executions (nothing is added to the running-execution manager
and no first task is appended) while the tasks already started for accepted
running executions are still passed to `driver.launchTasks`. -/
theorem schedule_retry_and_abandon
    (node_offers_list : List NodeOffers)
    (attempt : Nat → List QueuedJobExe → Except OperationalError (List RunningJobExe))
    (hfail : ∀ i batch, attempt i batch = .error .operationalError)
    (hids : node_offers_list.Pairwise fun a b => a.node_id ≠ b.node_id) :
    (schedule_queued_job_executions attempt
        (node_offers_list.flatMap (fun no => no.accepted_new))).attemptsMade = 5
    ∧ (schedule_queued_job_executions attempt
        (node_offers_list.flatMap (fun no => no.accepted_new))).result =
        .error .operationalError
    ∧ (∀ dly ∈ (schedule_queued_job_executions attempt
        (node_offers_list.flatMap (fun no => no.accepted_new))).delaysMs,
        1000 ≤ dly ∧ dly ≤ 5000)
    ∧ schedule_accepted_tasks_run node_offers_list attempt =
        .ok { addedJobExes := [],
              launches := node_offers_list.map (fun no => (no.offer_ids, runningTasks no)),
              numTasks := (node_offers_list.map (fun no => (runningTasks no).length)).sum } := by
  have htrace : ∀ batch, schedule_queued_job_executions attempt batch =
      { result := .error .operationalError, attemptsMade := 5,
        delaysMs := [1000, 2000, 4000, 5000] } := by
    intro batch
    simp [schedule_queued_job_executions, retry_database_query, runRetryAux, hfail,
      retryDelayMs]
  refine ⟨by rw [htrace], by rw [htrace], by rw [htrace]; decide, ?_⟩
  have hsched : ∀ batch,
      (schedule_queued_job_executions attempt batch).result = .error .operationalError := by
    intro batch
    rw [htrace]
  rw [schedule_accepted_tasks_run, schedule_accepted_tasks]
  simp only [hsched]
  have h1 : node_offers_list.map (fun no => (no.offer_ids,
      (dictLookup (node_offers_list.foldl
        (fun d no => dictSet d no.node_id (runningTasks no)) []) no.node_id).getD [])) =
      node_offers_list.map (fun no => (no.offer_ids, runningTasks no)) :=
    List.map_congr_left fun no hno => by
      rw [foldl_tasks_mem node_offers_list [] no hno hids]
      rfl
  have h2 : node_offers_list.map (fun no =>
      ((dictLookup (node_offers_list.foldl
        (fun d no => dictSet d no.node_id (runningTasks no)) []) no.node_id).getD []).length) =
      node_offers_list.map (fun no => (runningTasks no).length) :=
    List.map_congr_left fun no hno => by
      rw [foldl_tasks_mem node_offers_list [] no hno hids]
      rfl
  rw [h1, h2]

/-- Witness for `schedule_retry_and_abandon`: one node with an accepted running
task and one accepted queued execution, every persistence attempt failing. -/
theorem schedule_retry_and_abandon_witness :
    schedule_accepted_tasks_run
        [NodeOffers.mk 1 [10] [RunningJobExe.mk 7 1 (some 70)] [QueuedJobExe.mk 3]]
        (fun _ _ => .error .operationalError) =
      .ok { addedJobExes := [],
            launches := [NodeOffers.mk 1 [10] [RunningJobExe.mk 7 1 (some 70)]
              [QueuedJobExe.mk 3]].map (fun no => (no.offer_ids, runningTasks no)),
            numTasks := ([NodeOffers.mk 1 [10] [RunningJobExe.mk 7 1 (some 70)]
              [QueuedJobExe.mk 3]].map (fun no => (runningTasks no).length)).sum } :=
  (schedule_retry_and_abandon
    [NodeOffers.mk 1 [10] [RunningJobExe.mk 7 1 (some 70)] [QueuedJobExe.mk 3]]
    (fun _ _ => .error .operationalError) (fun _ _ => rfl) (by decide)).2.2.2

theorem appendScheduled_single (nid : Nat) (ses : List RunningJobExe)
    (hs : ∀ se ∈ ses, se.node_id = nid) :
    ∀ l : List (Option Nat),
      appendScheduled [(nid, l)] ses =
        some [(nid, l ++ ses.map (fun se => se.next_task))] := by
  induction ses with
  | nil => intro l; simp [appendScheduled]
  | cons se rest ih =>
    intro l
    have hse : se.node_id = nid := hs se (List.mem_cons_self se rest)
    rw [appendScheduled]
    have happ : dictAppendAt [(nid, l)] se.node_id se.next_task =
        some [(nid, l ++ [se.next_task])] := by
      simp [dictAppendAt, hse]
    simp only [happ]
    rw [ih (fun x hx => hs x (List.mem_cons_of_mem se hx)) (l ++ [se.next_task])]
    simp

/-- Claim C10: when `schedule_job_executions` succeeds, every scheduled
execution's `start_next_task()` value is appended to its node's launch list and
counted even when it is `None`, while the accepted-running path (`runningTasks`)
skips falsy results; hence the task list handed to `driver.launchTasks` can
contain a `none` entry and the round's count can be nonzero with no real
task. -/
theorem scheduled_next_task_appended_even_none
    (nid : Nat) (offers : List Nat) (accepted_running : List RunningJobExe)
    (accepted_new : List QueuedJobExe) (scheduled : List RunningJobExe)
    (hs : ∀ se ∈ scheduled, se.node_id = nid) :
    schedule_accepted_tasks [NodeOffers.mk nid offers accepted_running accepted_new]
        (fun _ => .ok scheduled) =
      .ok { addedJobExes := scheduled,
            launches := [(offers,
              runningTasks (NodeOffers.mk nid offers accepted_running accepted_new) ++
                scheduled.map (fun se => se.next_task))],
            numTasks :=
              (runningTasks (NodeOffers.mk nid offers accepted_running accepted_new)).length +
                scheduled.length } := by
  rw [schedule_accepted_tasks]
  simp only [List.foldl_cons, List.foldl_nil]
  rw [show dictSet ([] : List (Nat × List (Option Nat))) nid
      (runningTasks (NodeOffers.mk nid offers accepted_running accepted_new)) =
      [(nid, runningTasks (NodeOffers.mk nid offers accepted_running accepted_new))] from rfl]
  rw [appendScheduled_single nid scheduled hs]
  simp [dictLookup]

/-- Witness for `scheduled_next_task_appended_even_none`: the accepted running
execution's falsy next task is skipped, while the scheduled execution's `None`
first task is appended and counted, so `launchTasks` receives `[none]` and the
round reports one launched task. -/
theorem scheduled_next_task_appended_even_none_witness :
    schedule_accepted_tasks
        [NodeOffers.mk 1 [10] [RunningJobExe.mk 7 1 none] [QueuedJobExe.mk 3]]
        (fun _ => .ok [RunningJobExe.mk 8 1 none]) =
      .ok (SchedulingResult.mk [RunningJobExe.mk 8 1 none] [([10], [none])] 1) := by
  rw [scheduled_next_task_appended_even_none 1 [10] [RunningJobExe.mk 7 1 none]
    [QueuedJobExe.mk 3] [RunningJobExe.mk 8 1 none] (by decide)]
  rfl

/-! ## Ingest data-type tags (src/scale/ingest/models.py, class Ingest) -/

/-- Python strings manipulated by the tag operations, embedded as character
lists. -/
abbrev PyString := List Char

/-- Modelled from the spec: `storage.models.VALID_TAG_PATTERN` is not in the
source sample; per the spec a valid data-type tag fully matches
`[A-Za-z0-9_ ]+`. -/
def validTagChar (c : Char) : Bool :=
  (('A' ≤ c && c ≤ 'Z') || ('a' ≤ c && c ≤ 'z') || ('0' ≤ c && c ≤ '9') ||
    c = '_' || c = ' ')

/-- Modelled from the spec: a tag is valid when it is non-empty and every
character is alphanumeric, an underscore, or a space. -/
def validTag (t : PyString) : Bool :=
  !t.isEmpty && t.all validTagChar

/-- Python `str.split(',')`: eager split on every comma; note that
`''.split(',')` is `['']`. -/
def splitComma : PyString → List PyString
  | [] => [[]]
  | c :: rest =>
    let gs := splitComma rest
    if c = ',' then [] :: gs
    else
      match gs with
      | g :: gs₁ => (c :: g) :: gs₁
      | [] => [[c]]

/-- Python `set.add`: the set is embedded as a duplicate-free list in
first-insertion order. -/
def pySetInsert (acc : List PyString) (x : PyString) : List PyString :=
  if x ∈ acc then acc else acc ++ [x]

/-- `Ingest.get_data_type_tags`: a falsy (empty) `data_type` yields the empty
set; otherwise split on commas and collect the pieces into a set. -/
def get_data_type_tags (data_type : PyString) : List PyString :=
  if data_type = [] then []
  else (splitComma data_type).foldl pySetInsert []

/-- `Ingest._set_data_type_tags`: `','.join(tags)`. -/
def set_data_type_tags (tags : List PyString) : PyString :=
  List.intercalate [','] tags

/-- `storage.exceptions.InvalidDataTypeTag`. -/
inductive InvalidDataTypeTag where
  | invalidDataTypeTag
deriving DecidableEq, Repr

/-- `Ingest.add_data_type_tag`: reject an invalid tag, otherwise add the tag to
the tag set and store the re-joined string. -/
def add_data_type_tag (data_type : PyString) (tag : PyString) :
    Except InvalidDataTypeTag PyString :=
  if validTag tag then
    .ok (set_data_type_tags (pySetInsert (get_data_type_tags data_type) tag))
  else .error .invalidDataTypeTag

theorem splitComma_no_comma (g : PyString) (h : ',' ∉ g) : splitComma g = [g] := by
  induction g with
  | nil => rfl
  | cons c rest ih =>
    have hc : ¬c = ',' := fun he => h (he ▸ List.mem_cons_self c rest)
    have hrest : ',' ∉ rest := fun hm => h (List.mem_cons_of_mem c hm)
    simp only [splitComma, if_neg hc, ih hrest]

theorem splitComma_cons_ne (c : Char) (t : PyString) (hc : ¬c = ',') :
    splitComma (c :: t) =
      match splitComma t with
      | g :: gs₁ => (c :: g) :: gs₁
      | [] => [[c]] := by
  simp only [splitComma, if_neg hc]

theorem splitComma_append_comma (g : PyString) (s : PyString) (h : ',' ∉ g) :
    splitComma (g ++ ',' :: s) = g :: splitComma s := by
  induction g with
  | nil => simp [splitComma]
  | cons c rest ih =>
    have hc : ¬c = ',' := fun he => h (he ▸ List.mem_cons_self c rest)
    have hrest : ',' ∉ rest := fun hm => h (List.mem_cons_of_mem c hm)
    rw [List.cons_append, splitComma_cons_ne c _ hc, ih hrest]

theorem mem_splitComma_no_comma (s : PyString) :
    ∀ g ∈ splitComma s, ',' ∉ g := by
  induction s with
  | nil =>
    intro g hg
    simp only [splitComma, List.mem_singleton] at hg
    subst hg
    exact List.not_mem_nil ','
  | cons c rest ih =>
    intro g hg
    by_cases hc : c = ','
    · simp only [splitComma, if_pos hc] at hg
      rcases List.mem_cons.mp hg with he | ht
      · subst he
        exact List.not_mem_nil ','
      · exact ih g ht
    · simp only [splitComma, if_neg hc] at hg
      cases hsp : splitComma rest with
      | nil =>
        rw [hsp] at hg
        simp only [List.mem_singleton] at hg
        subst hg
        intro hm
        rcases List.mem_cons.mp hm with he | ht
        · exact hc he.symm
        · exact List.not_mem_nil ',' ht
      | cons g₀ gs₁ =>
        rw [hsp] at hg
        rcases List.mem_cons.mp hg with he | ht
        · subst he
          intro hm
          rcases List.mem_cons.mp hm with he₁ | ht₁
          · exact hc he₁.symm
          · exact ih g₀ (hsp ▸ List.mem_cons_self g₀ gs₁) ht₁
        · exact ih g (hsp ▸ List.mem_cons_of_mem g₀ ht)

theorem intercalate_comma_cons (g : PyString) (l : List PyString) (h : l ≠ []) :
    List.intercalate [','] (g :: l) = g ++ ',' :: List.intercalate [','] l := by
  cases l with
  | nil => exact absurd rfl h
  | cons b l₁ => simp [List.intercalate, List.intersperse]

theorem splitComma_intercalate (l : List PyString) :
    l ≠ [] → (∀ g ∈ l, ',' ∉ g) →
      splitComma (List.intercalate [','] l) = l := by
  induction l with
  | nil => intro h; exact absurd rfl h
  | cons g l₁ ih =>
    intro _ hfree
    cases hl : l₁ with
    | nil =>
      have hsing : List.intercalate [','] [g] = g := by
        simp [List.intercalate, List.intersperse]
      rw [hsing, splitComma_no_comma g (hfree g (List.mem_cons_self g l₁))]
    | cons b l₂ =>
      rw [← hl, intercalate_comma_cons g l₁ (by rw [hl]; exact List.cons_ne_nil b l₂),
        splitComma_append_comma _ _ (hfree g (List.mem_cons_self g l₁)),
        ih (by rw [hl]; exact List.cons_ne_nil b l₂)
          (fun x hx => hfree x (List.mem_cons_of_mem g hx))]

theorem foldl_pySetInsert_nodup (l : List PyString) :
    ∀ acc, acc.Nodup → (l.foldl pySetInsert acc).Nodup := by
  induction l with
  | nil => intro acc h; exact h
  | cons x l₁ ih =>
    intro acc hacc
    rw [List.foldl_cons]
    refine ih _ ?_
    unfold pySetInsert
    by_cases hx : x ∈ acc
    · rw [if_pos hx]; exact hacc
    · rw [if_neg hx]
      exact List.Nodup.append hacc (List.nodup_singleton x)
        (List.disjoint_singleton.mpr hx)

theorem mem_foldl_pySetInsert (l : List PyString) :
    ∀ acc x, x ∈ l.foldl pySetInsert acc → x ∈ acc ∨ x ∈ l := by
  induction l with
  | nil => intro acc x h; exact Or.inl h
  | cons y l₁ ih =>
    intro acc x h
    rw [List.foldl_cons] at h
    rcases ih _ x h with hacc | hl
    · unfold pySetInsert at hacc
      by_cases hy : y ∈ acc
      · rw [if_pos hy] at hacc
        exact Or.inl hacc
      · rw [if_neg hy] at hacc
        rcases List.mem_append.mp hacc with h₁ | h₂
        · exact Or.inl h₁
        · simp only [List.mem_singleton] at h₂
          exact Or.inr (h₂ ▸ List.mem_cons_self y l₁)
    · exact Or.inr (List.mem_cons_of_mem y hl)

theorem foldl_pySetInsert_of_nodup (l : List PyString) :
    ∀ acc, l.Nodup → (∀ x ∈ l, x ∉ acc) → l.foldl pySetInsert acc = acc ++ l := by
  induction l with
  | nil => intro acc _ _; simp
  | cons x l₁ ih =>
    intro acc hnd hdisj
    rw [List.nodup_cons] at hnd
    rw [List.foldl_cons]
    have hx : x ∉ acc := hdisj x (List.mem_cons_self x l₁)
    rw [show pySetInsert acc x = acc ++ [x] from if_neg hx]
    rw [ih _ hnd.2 ?_]
    · simp
    · intro y hy hmem
      rcases List.mem_append.mp hmem with h₁ | h₂
      · exact hdisj y (List.mem_cons_of_mem x hy) h₁
      · simp only [List.mem_singleton] at h₂
        exact hnd.1 (h₂ ▸ hy)

theorem validTag_no_comma (t : PyString) (h : validTag t = true) : ',' ∉ t := by
  intro hm
  unfold validTag at h
  have hall := (Bool.and_eq_true _ _ |>.mp h).2
  have := List.all_eq_true.mp hall ',' hm
  simp [validTagChar] at this

theorem validTag_ne_nil (t : PyString) (h : validTag t = true) : t ≠ [] := by
  intro he
  subst he
  simp [validTag] at h

/-- The tag set parsed back from a stored tag string: every element is
comma-free, and the parse of a joined duplicate-free comma-free list is the
list itself. -/
theorem get_data_type_tags_set (data_type : PyString) :
    (get_data_type_tags data_type).Nodup ∧
      ∀ x ∈ get_data_type_tags data_type, ',' ∉ x := by
  unfold get_data_type_tags
  by_cases h : data_type = []
  · simp [h]
  · rw [if_neg h]
    refine ⟨foldl_pySetInsert_nodup _ [] List.nodup_nil, fun x hx => ?_⟩
    rcases mem_foldl_pySetInsert _ [] x hx with h₁ | h₂
    · exact absurd h₁ (List.not_mem_nil x)
    · exact mem_splitComma_no_comma data_type x h₂

/-- Claim C8: for every valid tag `t`, after `add_data_type_tag(t)` the parsed
tag set contains `t`, and adding `t` a second time leaves the tag set (and in
fact the stored string) unchanged: the set round-trips through the
comma-join/split representation in `data_type`. -/
theorem add_data_type_tag_roundtrip (data_type tag : PyString)
    (hv : validTag tag = true) :
    ∃ d₁, add_data_type_tag data_type tag = .ok d₁
      ∧ tag ∈ get_data_type_tags d₁
      ∧ ∃ d₂, add_data_type_tag d₁ tag = .ok d₂
        ∧ (∀ x, x ∈ get_data_type_tags d₂ ↔ x ∈ get_data_type_tags d₁) := by
  obtain ⟨hnd, hfree⟩ := get_data_type_tags_set data_type
  set T := get_data_type_tags data_type with hT
  set T₁ := pySetInsert T tag with hT₁
  have htag₁ : tag ∈ T₁ := by
    unfold_let T₁
    unfold pySetInsert
    by_cases h : tag ∈ T
    · rw [if_pos h]; exact h
    · rw [if_neg h]; simp
  have hT₁nd : T₁.Nodup := by
    unfold_let T₁
    unfold pySetInsert
    by_cases h : tag ∈ T
    · rw [if_pos h]; exact hnd
    · rw [if_neg h]
      exact List.Nodup.append hnd (List.nodup_singleton tag)
        (List.disjoint_singleton.mpr h)
  have hT₁free : ∀ x ∈ T₁, ',' ∉ x := by
    intro x hx
    unfold_let T₁ at hx
    unfold pySetInsert at hx
    by_cases h : tag ∈ T
    · rw [if_pos h] at hx
      exact hfree x hx
    · rw [if_neg h] at hx
      rcases List.mem_append.mp hx with h₁ | h₂
      · exact hfree x h₁
      · simp only [List.mem_singleton] at h₂
        exact h₂ ▸ validTag_no_comma tag hv
  have hT₁ne : T₁ ≠ [] := by
    intro he
    rw [he] at htag₁
    exact List.not_mem_nil tag htag₁
  have hsplit : splitComma (List.intercalate [','] T₁) = T₁ :=
    splitComma_intercalate T₁ hT₁ne hT₁free
  have hd₁ : add_data_type_tag data_type tag = .ok (List.intercalate [','] T₁) := by
    unfold add_data_type_tag
    rw [if_pos hv]
    rfl
  have hd₁ne : List.intercalate [','] T₁ ≠ [] := by
    intro he
    rw [he] at hsplit
    have : T₁ = [[]] := by
      simpa [splitComma] using hsplit.symm
    rw [this] at htag₁
    simp only [List.mem_singleton] at htag₁
    exact validTag_ne_nil tag hv htag₁
  have hget : get_data_type_tags (List.intercalate [','] T₁) = T₁ := by
    unfold get_data_type_tags
    rw [if_neg hd₁ne, hsplit]
    have := foldl_pySetInsert_of_nodup T₁ [] hT₁nd (by intro x _; exact List.not_mem_nil x)
    simpa using this
  refine ⟨List.intercalate [','] T₁, hd₁, by rw [hget]; exact htag₁,
    List.intercalate [','] T₁, ?_, ?_⟩
  · unfold add_data_type_tag
    rw [if_pos hv, hget]
    have hins : pySetInsert T₁ tag = T₁ := if_pos htag₁
    rw [hins]
    rfl
  · intro x
    exact Iff.rfl

/-- Witness for `add_data_type_tag_roundtrip` at `data_type = "a"`,
`tag = "b"`. -/
theorem add_data_type_tag_roundtrip_witness :
    ∃ d₁, add_data_type_tag ['a'] ['b'] = .ok d₁
      ∧ ['b'] ∈ get_data_type_tags d₁
      ∧ ∃ d₂, add_data_type_tag d₁ ['b'] = .ok d₂
        ∧ (∀ x, x ∈ get_data_type_tags d₂ ↔ x ∈ get_data_type_tags d₁) :=
  add_data_type_tag_roundtrip ['a'] ['b'] (by decide)

/-! ## Ingest status rollup (src/scale/ingest/models.py, IngestManager)

Timestamps are embedded as minute counts on a linear time line: a calendar day
is 1440 minutes and an hour is 60, so `datetime(d.year, d.month, d.day, hour)`
becomes `(t / 1440) * 1440 + hour * 60`, the hourly slot
`datetime(..., dated.hour)` becomes `(t / 60) * 60`, and
`(ended.date() - started.date()).days` becomes the difference of the
day quotients. -/

/-- The slice of an `Ingest` row read by `get_status`; nullable datetime
columns are `Option Nat`. -/
structure IngestRow where
  strike_id : Option Nat
  status : String
  file_size : Nat
  data_started : Option Nat
  data_ended : Option Nat
  ingest_ended : Option Nat
deriving DecidableEq, Repr

/-- `ingest.models.IngestCounts`: counts for one hourly time slot. -/
structure IngestCounts where
  time : Nat
  files : Nat
  size : Nat
deriving DecidableEq, Repr

/-- `ingest.models.IngestStatus`: per-strike rollup (`values or []` makes a
fresh status start with an empty values list). -/
structure IngestStatus where
  strike : Nat
  most_recent : Option Nat
  files : Nat
  size : Nat
  values : List IngestCounts
deriving DecidableEq, Repr

/-- `datetime(dated.year, dated.month, dated.day, dated.hour)`: floor to the
hour. -/
def floorToHour (t : Nat) : Nat := (t / 60) * 60

/-- The grouping date of an ingest in `_group_by_time`: `ingest_ended` when
grouping by ingest time, else `data_started`. -/
def datedOf (use_ingest_time : Bool) (i : IngestRow) : Option Nat :=
  if use_ingest_time then i.ingest_ended else i.data_started

/-- The `started` filter of `get_status` (`ingest_ended__gte=started` or
`data_ended__gte=started`); a NULL column never matches. -/
def filterStarted (use_ingest_time : Bool) (started : Option Nat)
    (l : List IngestRow) : List IngestRow :=
  match started with
  | none => l
  | some s => l.filter (fun i =>
      match (if use_ingest_time then i.ingest_ended else i.data_ended) with
      | some d => decide (s ≤ d)
      | none => false)

/-- The `ended` filter of `get_status` (`ingest_ended__lte=ended` or
`data_started__lte=ended`); a NULL column never matches. -/
def filterEnded (use_ingest_time : Bool) (ended : Option Nat)
    (l : List IngestRow) : List IngestRow :=
  match ended with
  | none => l
  | some e => l.filter (fun i =>
      match (if use_ingest_time then i.ingest_ended else i.data_started) with
      | some d => decide (d ≤ e)
      | none => false)

/-- `order_by('ingest_ended')` / `order_by('data_started')`: ascending with SQL
null ordering (NULLS LAST). -/
def datedLE (use_ingest_time : Bool) (a b : IngestRow) : Bool :=
  match datedOf use_ingest_time a, datedOf use_ingest_time b with
  | some x, some y => decide (x ≤ y)
  | some _, none => true
  | none, some _ => false
  | none, none => true

/-- Stable insertion step of the sort. -/
def orderedInsert (le : IngestRow → IngestRow → Bool) (x : IngestRow) :
    List IngestRow → List IngestRow
  | [] => [x]
  | y :: rest => if le x y then x :: y :: rest else y :: orderedInsert le x rest

/-- The ascending sort applied by `get_status`. -/
def orderByDated (use_ingest_time : Bool) (l : List IngestRow) : List IngestRow :=
  l.foldr (orderedInsert (datedLE use_ingest_time)) []

/-- The ingest list handed to `_group_by_time`: the `status='INGESTED'` filter,
the window filters, and the sort. -/
def statusIngests (db : List IngestRow) (started ended : Option Nat)
    (use_ingest_time : Bool) : List IngestRow :=
  orderByDated use_ingest_time
    (filterEnded use_ingest_time ended
      (filterStarted use_ingest_time started
        (db.filter (fun i => i.status == "INGESTED"))))

/-- `IngestManager._update_status`: bump the counts of the record's hourly slot
and the per-strike summary values. -/
def updateStatus (st : IngestStatus) (slots : List (Nat × IngestCounts))
    (i : IngestRow) (dated : Nat) : IngestStatus × List (Nat × IngestCounts) :=
  let time_slot := floorToHour dated
  let slots₁ :=
    match dictLookup slots time_slot with
    | none => dictSet slots time_slot (IngestCounts.mk time_slot 1 i.file_size)
    | some c => dictSet slots time_slot
        (IngestCounts.mk c.time (c.files + 1) (c.size + i.file_size))
  ({ st with
      files := st.files + 1,
      size := st.size + i.file_size,
      most_recent :=
        match st.most_recent with
        | none => some dated
        | some mr => if mr < dated then some dated else some mr },
    slots₁)

/-- One step of the `_group_by_time` loop as seen by one strike: rows of other
strikes (or with no strike) and rows with no grouping date are skipped. -/
def groupStrikeStep (use_ingest_time : Bool) (s : Nat)
    (acc : IngestStatus × List (Nat × IngestCounts)) (i : IngestRow) :
    IngestStatus × List (Nat × IngestCounts) :=
  if i.strike_id = some s then
    match datedOf use_ingest_time i with
    | some dated => updateStatus acc.1 acc.2 i dated
    | none => acc
  else acc

/-- `_group_by_time` restricted to one strike: fold the ingests into the
strike's fresh `IngestStatus` and hourly slot dict. -/
def groupStrike (use_ingest_time : Bool) (ingests : List IngestRow) (s : Nat) :
    IngestStatus × List (Nat × IngestCounts) :=
  ingests.foldl (groupStrikeStep use_ingest_time s) (IngestStatus.mk s none 0 0 [], [])

/-- `IngestManager._fill_status`: append one `IngestCounts` per hour of every
day from `started` to `ended` (defaulting to today's day bounds), zero-filled
where no slot was recorded.  Python's `range` over a non-positive day count is
empty, hence the `Int.toNat` clamp. -/
def fillStatus (st : IngestStatus) (slots : List (Nat × IngestCounts))
    (started ended : Option Nat) (today : Nat) : IngestStatus :=
  let s := started.getD ((today / 1440) * 1440)
  let e := ended.getD ((today / 1440) * 1440 + 1439)
  let numDays : Nat := (((e / 1440 : Nat) : Int) - ((s / 1440 : Nat) : Int) + 1).toNat
  let vals := (List.range numDays).flatMap (fun day =>
    (List.range 24).map (fun hour =>
      match dictLookup slots (((s + day * 1440) / 1440) * 1440 + hour * 60) with
      | some c => c
      | none => IngestCounts.mk (((s + day * 1440) / 1440) * 1440 + hour * 60) 0 0))
  { st with values := st.values ++ vals }

/-- `IngestManager.get_status`: filter to INGESTED rows inside the window, sort,
group per strike by hourly slot, then zero-fill every strike's status over the
requested range.  `today` stands for `timezone.now()`, used only when a bound
is omitted; `strikes` is the list of `Strike` row ids. -/
def get_status (db : List IngestRow) (strikes : List Nat) (started ended : Option Nat)
    (use_ingest_time : Bool) (today : Nat) : List IngestStatus :=
  let ingests := statusIngests db started ended use_ingest_time
  strikes.map (fun s =>
    let g := groupStrike use_ingest_time ingests s
    fillStatus g.1 g.2 started ended today)

theorem groupStrikeStep_preserve (u : Bool) (s : Nat)
    (acc : IngestStatus × List (Nat × IngestCounts)) (i : IngestRow) :
    (groupStrikeStep u s acc i).1.values = acc.1.values ∧
      (groupStrikeStep u s acc i).1.strike = acc.1.strike := by
  by_cases hm : i.strike_id = some s
  · cases hd : datedOf u i with
    | none => simp [groupStrikeStep, hm, hd]
    | some dated => simp [groupStrikeStep, hm, hd, updateStatus]
  · simp [groupStrikeStep, hm]

theorem group_fold_preserve (u : Bool) (s : Nat) (l : List IngestRow) :
    ∀ acc, ((l.foldl (groupStrikeStep u s) acc).1.values = acc.1.values ∧
      (l.foldl (groupStrikeStep u s) acc).1.strike = acc.1.strike) := by
  induction l with
  | nil => intro acc; exact ⟨rfl, rfl⟩
  | cons i rest ih =>
    intro acc
    rw [List.foldl_cons]
    obtain ⟨h1, h2⟩ := ih (groupStrikeStep u s acc i)
    obtain ⟨g1, g2⟩ := groupStrikeStep_preserve u s acc i
    exact ⟨h1.trans g1, h2.trans g2⟩

theorem updateStatus_time_inv (st : IngestStatus) (slots : List (Nat × IngestCounts))
    (i : IngestRow) (dated : Nat)
    (hinv : ∀ k c, dictLookup slots k = some c → c.time = k) :
    ∀ k c, dictLookup (updateStatus st slots i dated).2 k = some c → c.time = k := by
  intro k c h
  have h2 : (updateStatus st slots i dated).2 =
      match dictLookup slots (floorToHour dated) with
      | none => dictSet slots (floorToHour dated)
          (IngestCounts.mk (floorToHour dated) 1 i.file_size)
      | some c₀ => dictSet slots (floorToHour dated)
          (IngestCounts.mk c₀.time (c₀.files + 1) (c₀.size + i.file_size)) := rfl
  rw [h2] at h
  cases hl : dictLookup slots (floorToHour dated) with
  | none =>
    simp only [hl] at h
    by_cases hk : floorToHour dated = k
    · subst hk
      rw [dictLookup_dictSet_self] at h
      simp only [Option.some.injEq] at h
      rw [← h]
    · rw [dictLookup_dictSet_ne _ _ _ _ hk] at h
      exact hinv k c h
  | some c₀ =>
    simp only [hl] at h
    have hc₀ : c₀.time = floorToHour dated := hinv _ c₀ hl
    by_cases hk : floorToHour dated = k
    · subst hk
      rw [dictLookup_dictSet_self] at h
      simp only [Option.some.injEq] at h
      rw [← h]
      exact hc₀
    · rw [dictLookup_dictSet_ne _ _ _ _ hk] at h
      exact hinv k c h

theorem group_fold_time_inv (u : Bool) (s : Nat) (l : List IngestRow) :
    ∀ acc, (∀ k c, dictLookup acc.2 k = some c → c.time = k) →
      ∀ k c, dictLookup ((l.foldl (groupStrikeStep u s) acc)).2 k = some c →
        c.time = k := by
  induction l with
  | nil => intro acc hinv; exact hinv
  | cons i rest ih =>
    intro acc hinv
    rw [List.foldl_cons]
    refine ih _ ?_
    by_cases hm : i.strike_id = some s
    · cases hd : datedOf u i with
      | none =>
        simp only [groupStrikeStep, if_pos hm, hd]
        exact hinv
      | some dated =>
        simp only [groupStrikeStep, if_pos hm, hd]
        exact updateStatus_time_inv acc.1 acc.2 i dated hinv
    · simp only [groupStrikeStep, if_neg hm]
      exact hinv

theorem dictLookup_dictSet_isSome {α : Type} (d : List (Nat × α)) (k k' : Nat) (v : α)
    (h : (dictLookup (dictSet d k v) k').isSome) :
    k' = k ∨ (dictLookup d k').isSome := by
  by_cases he : k = k'
  · exact Or.inl he.symm
  · rw [dictLookup_dictSet_ne d k k' v he] at h
    exact Or.inr h

theorem updateStatus_origin (st : IngestStatus) (slots : List (Nat × IngestCounts))
    (i : IngestRow) (dated k : Nat)
    (h : (dictLookup (updateStatus st slots i dated).2 k).isSome) :
    k = floorToHour dated ∨ (dictLookup slots k).isSome := by
  have h2 : (updateStatus st slots i dated).2 =
      match dictLookup slots (floorToHour dated) with
      | none => dictSet slots (floorToHour dated)
          (IngestCounts.mk (floorToHour dated) 1 i.file_size)
      | some c₀ => dictSet slots (floorToHour dated)
          (IngestCounts.mk c₀.time (c₀.files + 1) (c₀.size + i.file_size)) := rfl
  rw [h2] at h
  cases hl : dictLookup slots (floorToHour dated) with
  | none =>
    simp only [hl] at h
    exact dictLookup_dictSet_isSome _ _ _ _ h
  | some c₀ =>
    simp only [hl] at h
    exact dictLookup_dictSet_isSome _ _ _ _ h

theorem group_fold_origin (u : Bool) (s : Nat) (l : List IngestRow) :
    ∀ acc k, (dictLookup ((l.foldl (groupStrikeStep u s) acc)).2 k).isSome →
      (dictLookup acc.2 k).isSome ∨
        ∃ i ∈ l, i.strike_id = some s ∧
          ∃ d, datedOf u i = some d ∧ floorToHour d = k := by
  induction l with
  | nil => intro acc k h; exact Or.inl h
  | cons i rest ih =>
    intro acc k h
    rw [List.foldl_cons] at h
    rcases ih _ k h with hacc | ⟨i₁, hi₁, hs₁, d, hd₁, hf₁⟩
    · by_cases hm : i.strike_id = some s
      · cases hd : datedOf u i with
        | none =>
          simp only [groupStrikeStep, if_pos hm, hd] at hacc
          exact Or.inl hacc
        | some dated =>
          simp only [groupStrikeStep, if_pos hm, hd] at hacc
          rcases updateStatus_origin acc.1 acc.2 i dated k hacc with he | hs₂
          · exact Or.inr ⟨i, List.mem_cons_self i rest, hm, dated, hd, he.symm⟩
          · exact Or.inl hs₂
      · simp only [groupStrikeStep, if_neg hm] at hacc
        exact Or.inl hacc
    · exact Or.inr ⟨i₁, List.mem_cons_of_mem i hi₁, hs₁, d, hd₁, hf₁⟩

theorem range24_flatMap {β : Type} (g : Nat → Nat → β) :
    ∀ n : Nat, (List.range n).flatMap (fun day => (List.range 24).map (g day)) =
      (List.range (n * 24)).map (fun j => g (j / 24) (j % 24)) := by
  intro n
  induction n with
  | zero => simp
  | succ m ih =>
    rw [List.range_succ, List.flatMap_append, ih, Nat.succ_mul, List.range_add,
      List.map_append, List.map_map]
    congr 1
    rw [List.flatMap_cons, List.flatMap_nil, List.append_nil]
    apply List.map_congr_left
    intro i hi
    have hlt : i < 24 := List.mem_range.mp hi
    simp only [Function.comp]
    rw [show (m * 24 + i) / 24 = m from by omega,
      show (m * 24 + i) % 24 = i from by omega]

theorem fillStatus_values (st : IngestStatus) (slots : List (Nat × IngestCounts))
    (s e today : Nat) (hse : s ≤ e) :
    (fillStatus st slots (some s) (some e) today).values =
      st.values ++ (List.range ((e / 1440 - s / 1440 + 1) * 24)).map (fun j =>
        match dictLookup slots ((s / 1440 + j / 24) * 1440 + (j % 24) * 60) with
        | some c => c
        | none => IngestCounts.mk ((s / 1440 + j / 24) * 1440 + (j % 24) * 60) 0 0) := by
  have hdays : s / 1440 ≤ e / 1440 := Nat.div_le_div_right hse
  simp only [fillStatus, Option.getD_some]
  rw [show ((((e / 1440 : Nat) : Int)) - (((s / 1440 : Nat) : Int)) + 1).toNat
      = e / 1440 - s / 1440 + 1 from by omega]
  rw [range24_flatMap]
  congr 1
  apply List.map_congr_left
  intro j hj
  rw [show (s + j / 24 * 1440) / 1440 = s / 1440 + j / 24 from by omega]

/-- Claim C7: with both `started` and `ended` supplied, only `INGESTED` rows
contribute to any count, and every returned `IngestStatus.values` list is
zero-filled over the whole range with length exactly
`24 × (days_in_range + 1)`: an entry exists for every hour slot, with zero
counts wherever no ingest fell in the slot. -/
theorem get_status_spec (db : List IngestRow) (strikes : List Nat)
    (s e today : Nat) (use_ingest_time : Bool) (hse : s ≤ e) :
    get_status db strikes (some s) (some e) use_ingest_time today =
      get_status (db.filter (fun i => i.status == "INGESTED")) strikes (some s) (some e)
        use_ingest_time today
    ∧ ∀ st ∈ get_status db strikes (some s) (some e) use_ingest_time today,
        st.values.length = 24 * (e / 1440 - s / 1440 + 1)
        ∧ ∀ j (hj : j < st.values.length),
          (st.values.get ⟨j, hj⟩).time = (s / 1440 + j / 24) * 1440 + (j % 24) * 60
          ∧ ((st.values.get ⟨j, hj⟩).files = 0 ∧ (st.values.get ⟨j, hj⟩).size = 0
            ∨ ∃ i ∈ statusIngests db (some s) (some e) use_ingest_time,
                i.strike_id = some st.strike
                ∧ ∃ d, datedOf use_ingest_time i = some d
                  ∧ floorToHour d = (st.values.get ⟨j, hj⟩).time) := by
  constructor
  · have hff : (db.filter (fun i => i.status == "INGESTED")).filter
        (fun i => i.status == "INGESTED") = db.filter (fun i => i.status == "INGESTED") := by
      rw [List.filter_filter]
      simp
    unfold get_status statusIngests
    rw [hff]
  · intro st hst
    unfold get_status at hst
    rw [List.mem_map] at hst
    obtain ⟨strk, hstrk, hdef⟩ := hst
    have hvals0 : (groupStrike use_ingest_time
        (statusIngests db (some s) (some e) use_ingest_time) strk).1.values = [] :=
      (group_fold_preserve use_ingest_time strk
        (statusIngests db (some s) (some e) use_ingest_time)
        (IngestStatus.mk strk none 0 0 [], [])).1
    have hstrike : (groupStrike use_ingest_time
        (statusIngests db (some s) (some e) use_ingest_time) strk).1.strike = strk :=
      (group_fold_preserve use_ingest_time strk
        (statusIngests db (some s) (some e) use_ingest_time)
        (IngestStatus.mk strk none 0 0 [], [])).2
    have hstv : st.values = (List.range ((e / 1440 - s / 1440 + 1) * 24)).map (fun j =>
        match dictLookup (groupStrike use_ingest_time
            (statusIngests db (some s) (some e) use_ingest_time) strk).2
          ((s / 1440 + j / 24) * 1440 + (j % 24) * 60) with
        | some c => c
        | none => IngestCounts.mk ((s / 1440 + j / 24) * 1440 + (j % 24) * 60) 0 0) := by
      rw [← hdef, fillStatus_values _ _ s e today hse, hvals0]
      rfl
    have hstrike₂ : st.strike = strk := by
      rw [← hdef]
      exact hstrike
    constructor
    · rw [hstv, List.length_map, List.length_range, Nat.mul_comm]
    · intro j hj
      have hjlt : j < (e / 1440 - s / 1440 + 1) * 24 := by
        rw [hstv, List.length_map, List.length_range] at hj
        exact hj
      have hget : st.values.get ⟨j, hj⟩ =
          match dictLookup (groupStrike use_ingest_time
              (statusIngests db (some s) (some e) use_ingest_time) strk).2
            ((s / 1440 + j / 24) * 1440 + (j % 24) * 60) with
          | some c => c
          | none => IngestCounts.mk ((s / 1440 + j / 24) * 1440 + (j % 24) * 60) 0 0 := by
        rw [List.get_eq_getElem, List.getElem_of_eq hstv, List.getElem_map,
          List.getElem_range]
      cases hl : dictLookup (groupStrike use_ingest_time
          (statusIngests db (some s) (some e) use_ingest_time) strk).2
          ((s / 1440 + j / 24) * 1440 + (j % 24) * 60) with
      | none =>
        rw [hget]
        simp [hl]
      | some c =>
        rw [hget]
        simp only [hl]
        have htime : c.time = (s / 1440 + j / 24) * 1440 + (j % 24) * 60 :=
          group_fold_time_inv use_ingest_time strk
            (statusIngests db (some s) (some e) use_ingest_time)
            (IngestStatus.mk strk none 0 0 [], [])
            (by intro k c₀ h; simp [dictLookup] at h) _ c hl
        refine ⟨htime, Or.inr ?_⟩
        have hsome : (dictLookup (groupStrike use_ingest_time
            (statusIngests db (some s) (some e) use_ingest_time) strk).2
            ((s / 1440 + j / 24) * 1440 + (j % 24) * 60)).isSome := by
          rw [hl]
          rfl
        rcases group_fold_origin use_ingest_time strk
            (statusIngests db (some s) (some e) use_ingest_time)
            (IngestStatus.mk strk none 0 0 [], []) _ hsome with habs | ⟨i, hi, hsid, d, hd, hf⟩
        · simp [dictLookup] at habs
        · exact ⟨i, hi, by rw [hstrike₂]; exact hsid, d, hd, by rw [htime]; exact hf⟩

/-- Witness for `get_status_spec`: two rows (one `INGESTED`, one `ERRORED`) over
a two-day range. -/
theorem get_status_spec_witness :
    get_status [IngestRow.mk (some 1) "INGESTED" 500 (some 90) (some 100) (some 200),
        IngestRow.mk (some 1) "ERRORED" 7 (some 90) (some 100) (some 200)]
      [1] (some 0) (some 1500) false 0 =
      get_status ([IngestRow.mk (some 1) "INGESTED" 500 (some 90) (some 100) (some 200),
          IngestRow.mk (some 1) "ERRORED" 7 (some 90) (some 100) (some 200)].filter
        (fun i => i.status == "INGESTED"))
      [1] (some 0) (some 1500) false 0 :=
  (get_status_spec [IngestRow.mk (some 1) "INGESTED" 500 (some 90) (some 100) (some 200),
      IngestRow.mk (some 1) "ERRORED" 7 (some 90) (some 100) (some 200)]
    [1] 0 1500 0 false (by decide)).1

end Scale
